import Mathlib

/-!
Verification development for the MCP math/text HTTP server
(src/Module05/MCP/mcp-http-server.py).

The computation core of the server is shallowly embedded here:
Python floats are modelled as exact rationals (all inputs exercised by the
statements below stay in exactly-representable territory), carrying an
explicit IEEE sign bit wherever the code formats a computed float (so a
negative zero prints as Python prints it); Python exceptions that the server
converts to HTTP error responses are modelled with `Except`, and HTTP status
400 is the `invalid_input` error class while status 500 is `internal`
(following the error taxonomy of the design).
-/

/-- Error classification of the server: HTTP 400 responses are
`invalid_input`, HTTP 500 responses are `internal`. -/
inductive ErrorKind where
  | invalid_input
  | internal
deriving DecidableEq

/-- A classified error: a kind plus a human-readable message, the shape every
failing computation of the core produces. -/
structure ClassifiedError where
  kind : ErrorKind
  message : String
deriving DecidableEq

deriving instance DecidableEq for Except

attribute [local semireducible] Rat.mul Rat.inv Rat.add Rat.sub Rat.ofScientific

/-! ## Character and string utilities shared by the text operations

These model the CPython string primitives the source uses (`str.split`,
`str.strip`, `str.upper` and friends) for ASCII text, which is the domain the
server's examples and patterns work over. -/

/-- ASCII whitespace recognized by Python `str.split()` / `str.strip()` /
`str.isspace()`. -/
def isPySpace (c : Char) : Bool :=
  c == ' ' || c == '\t' || c == '\n' || c == '\r' || c == '\x0b' || c == '\x0c'

/-- Worker for `splitWs`: accumulates the current word (reversed). -/
def splitWsGo : List Char → List Char → List (List Char)
  | acc, [] => if acc.isEmpty then [] else [acc.reverse]
  | acc, c :: cs =>
    if isPySpace c then
      if acc.isEmpty then splitWsGo [] cs else acc.reverse :: splitWsGo [] cs
    else splitWsGo (c :: acc) cs

/-- Python `str.split()` with no argument: split on runs of whitespace,
discarding empty tokens. -/
def splitWs (s : List Char) : List (List Char) := splitWsGo [] s

/-- Worker for `pySplitSeq`; fuel bounds the recursion (each step consumes at
least one character of the remaining input). -/
def splitSeqGo (sep : List Char) : Nat → List Char → List Char → List (List Char)
  | 0, acc, s => [acc.reverse ++ s]
  | fuel + 1, acc, s =>
    if sep ≠ [] ∧ s.take sep.length = sep then
      acc.reverse :: splitSeqGo sep fuel [] (s.drop sep.length)
    else
      match s with
      | [] => [acc.reverse]
      | c :: cs => splitSeqGo sep fuel (c :: acc) cs

/-- Python `str.split(sep)` with a non-empty separator: split at each
non-overlapping occurrence of `sep`, keeping empty fragments. -/
def pySplitSeq (sep : List Char) (s : List Char) : List (List Char) :=
  splitSeqGo sep (s.length + 1) [] s

/-- Python `str.strip(chars)`: remove the characters of `set` from both ends. -/
def stripChars (set : List Char) (w : List Char) : List Char :=
  ((w.dropWhile (fun c => set.contains c)).reverse.dropWhile
    (fun c => set.contains c)).reverse

/-- Python `str.strip()` with no argument: strip ASCII whitespace. -/
def pyStrip (w : List Char) : List Char :=
  ((w.dropWhile isPySpace).reverse.dropWhile isPySpace).reverse

/-! ## Numeric operations (`calculate_statistics`, `solve_quadratic`) -/

/-- Integer square root by bounded upward search (`natSqrtL n` is the largest
`k` with `k * k ≤ n`). -/
def natSqrtGo (n : ℕ) : ℕ → ℕ → ℕ
  | 0, k => k
  | fuel + 1, k => if (k + 1) * (k + 1) ≤ n then natSqrtGo n fuel (k + 1) else k

/-- Integer square root (floor). -/
def natSqrtL (n : ℕ) : ℕ := natSqrtGo n n 0

/-- Exact rational square root, modelling `math.sqrt`.  It agrees with the
float computation on perfect-square rationals, which are the only inputs the
statements below evaluate it at. -/
def ratSqrt (q : ℚ) : ℚ :=
  (natSqrtL q.num.toNat : ℚ) / (natSqrtL q.den : ℚ)

/-- Decimal digits of the fractional part `n / d` (with `n < d`), fuel-bounded.
Terminates with the exact digits whenever the expansion is finite. -/
def fracDigits : Nat → Nat → Nat → List Char
  | 0, _, _ => []
  | _, 0, _ => []
  | fuel + 1, n, d =>
    Nat.digitChar (n * 10 / d) :: fracDigits fuel (n * 10 % d) d

/-- Python `str(float)` / f-string formatting, modelled for rationals whose
decimal expansion is finite (all values formatted by the statements below are
of this shape, e.g. `0 ↦ "0.0"`, `1 ↦ "1.0"`). -/
def ratRepr (q : ℚ) : String :=
  let sign := if q < 0 then "-" else ""
  let n := q.num.natAbs
  let intPart := n / q.den
  let fracPart := n % q.den
  let frac := fracDigits 30 fracPart q.den
  sign ++ toString intPart ++ "." ++ (if frac.isEmpty then "0" else frac.asString)

/-- A float value as the quadratic solver's complex branch manipulates it: an
exact rational magnitude-with-sign plus the IEEE negative-zero flag (floats
distinguish `-0.0` from `0.0`, and Python prints the sign; for non-zero values
the rational already carries the sign and the flag is unset).  Inputs are
modelled as exact rationals, so an input of literal `-0.0` is identified with
`0.0`; none of the statements below exercise such an input. -/
structure SignedRat where
  val : ℚ
  isNegZero : Bool
deriving DecidableEq

/-- A float of an exact rational (positive sign bit on zero). -/
def SignedRat.ofRat (q : ℚ) : SignedRat := ⟨q, false⟩

/-- The IEEE sign bit: set for negative values and for negative zero. -/
def SignedRat.signBit (x : SignedRat) : Bool :=
  decide (x.val < 0) || (decide (x.val = 0) && x.isNegZero)

/-- IEEE float negation: flips the sign bit, so negating a positive zero
yields the negative zero (this is how `-b` becomes `-0.0` for `b = 0.0`). -/
def SignedRat.sneg (x : SignedRat) : SignedRat :=
  ⟨-x.val, decide (x.val = 0) && !x.signBit⟩

/-- IEEE float division (for a non-zero divisor, which the source guards):
the magnitude is the exact quotient and the sign bit of a zero quotient is
the exclusive or of the operand sign bits. -/
def SignedRat.sdiv (x y : SignedRat) : SignedRat :=
  ⟨x.val / y.val, decide (x.val / y.val = 0) && (x.signBit != y.signBit)⟩

/-- Python `str`/f-string formatting of a float value: a negative zero prints
as `"-0.0"`, every other modelled value by its exact decimal expansion. -/
def SignedRat.sRepr (x : SignedRat) : String :=
  if x.isNegZero then "-0.0" else ratRepr x.val

/-- Roots of a quadratic: either real numbers or, for a negative discriminant,
formatted display strings (the source returns strings in that case). -/
inductive QuadRoots where
  | realRoots (rs : List ℚ)
  | complexRoots (ss : List String)
deriving DecidableEq

/-- Result shape of `solve_quadratic`. -/
structure QuadResult where
  discriminant : ℚ
  roots : QuadRoots
  root_type : String
deriving DecidableEq

/-- Shallow embedding of `solve_quadratic` (mcp-http-server.py:138-197).
Python raises `ZeroDivisionError` at the division when `2*a == 0`; the
embedding checks the divisor before dividing and returns the classified
error the surrounding `except` clause produces (an HTTP 400).  The roots kept
as numbers are modelled as exact rationals; the complex branch, which formats
its floats into strings, tracks the IEEE sign of `real_part = -b / (2*a)`
(for `b = 0` the float code produces the negative zero `-0.0 / 2a`, which
Python prints as `"-0.0"`). -/
def solve_quadratic (a b c : ℚ) : Except ClassifiedError QuadResult :=
  let discriminant := b ^ 2 - 4 * a * c
  if 0 < discriminant then
    if 2 * a = 0 then
      .error ⟨.invalid_input, "Error solving quadratic: division by zero"⟩
    else
      .ok ⟨discriminant,
        .realRoots [(-b + ratSqrt discriminant) / (2 * a),
                    (-b - ratSqrt discriminant) / (2 * a)],
        "real_distinct"⟩
  else if discriminant = 0 then
    if 2 * a = 0 then
      .error ⟨.invalid_input, "Error solving quadratic: division by zero"⟩
    else
      .ok ⟨discriminant, .realRoots [-b / (2 * a)], "real_repeated"⟩
  else
    if 2 * a = 0 then
      .error ⟨.invalid_input, "Error solving quadratic: division by zero"⟩
    else
      let real_part := ((SignedRat.ofRat b).sneg).sdiv (SignedRat.ofRat (2 * a))
      let imaginary_part :=
        (SignedRat.ofRat (ratSqrt (-discriminant))).sdiv (SignedRat.ofRat (2 * a))
      .ok ⟨discriminant,
        .complexRoots
          [real_part.sRepr ++ " + " ++ imaginary_part.sRepr ++ "i",
           real_part.sRepr ++ " - " ++ imaginary_part.sRepr ++ "i"],
        "complex"⟩

/-- Python `min(values)` over a non-empty list (0 for the empty list, which the
source never reaches). -/
def pyMin : List ℚ → ℚ
  | [] => 0
  | x :: xs => xs.foldl min x

/-- Python `max(values)` over a non-empty list (0 for the empty list, which the
source never reaches). -/
def pyMax : List ℚ → ℚ
  | [] => 0
  | x :: xs => xs.foldl max x

/-- `statistics.mean`. -/
def pyMean (l : List ℚ) : ℚ := l.sum / (l.length : ℚ)

/-- Insert into a sorted list (ascending). -/
def insertSorted (a : ℚ) : List ℚ → List ℚ
  | [] => [a]
  | b :: bs => if a ≤ b then a :: b :: bs else b :: insertSorted a bs

/-- Ascending sort, modelling Python `sorted`. -/
def sortAsc (l : List ℚ) : List ℚ := l.foldr insertSorted []

/-- `statistics.median`: middle of the sorted data, or the average of the two
middle values for even length. -/
def pyMedian (l : List ℚ) : ℚ :=
  let s := sortAsc l
  let n := s.length
  if n % 2 = 1 then s.getD (n / 2) 0
  else (s.getD (n / 2 - 1) 0 + s.getD (n / 2) 0) / 2

/-- The distinct values of `l` in order of first occurrence (fuel worker).
`(distinctInOrder l).length` is Python's `len(set(l))`. -/
def distinctGo : Nat → List ℚ → List ℚ
  | 0, _ => []
  | _ + 1, [] => []
  | n + 1, x :: xs => x :: distinctGo n (xs.filter (fun y => decide (y ≠ x)))

/-- The distinct values of `l` in order of first occurrence. -/
def distinctInOrder (l : List ℚ) : List ℚ := distinctGo l.length l

/-- `statistics.mode`: the most common value; on ties the value encountered
first wins (CPython uses an insertion-ordered counter). -/
def pyMode (l : List ℚ) : ℚ :=
  match distinctInOrder l with
  | [] => 0
  | d :: ds => ds.foldl (fun best x => if l.count best < l.count x then x else best) d

/-- `statistics.variance`: sample variance, `Σ (x - mean)² / (n - 1)`. -/
def pyVariance (l : List ℚ) : ℚ :=
  let m := pyMean l
  (l.map (fun x => (x - m) ^ 2)).sum / ((l.length : ℚ) - 1)

/-- Result shape of `calculate_statistics`. -/
structure StatsResult where
  count : ℕ
  mean : ℚ
  median : ℚ
  mode : Option ℚ
  std_dev : ℚ
  variance : ℚ
  min : ℚ
  max : ℚ
  range : ℚ
  sum : ℚ
deriving DecidableEq

/-- Shallow embedding of `calculate_statistics` (mcp-http-server.py:100-136).
On the empty list `statistics.mean` raises and the `except` clause turns the
exception into an HTTP 400; Python's `len(set(values))` is the length of the
first-occurrence dedup; `statistics.stdev` (a float square root) is modelled
with the exact rational square root, which agrees on the perfect-square
variances the statements below evaluate. -/
def calculate_statistics (values : List ℚ) : Except ClassifiedError StatsResult :=
  match values with
  | [] =>
    .error ⟨.invalid_input,
      "Error calculating statistics: mean requires at least one data point"⟩
  | _ :: _ =>
    .ok
      { count := values.length
        mean := pyMean values
        median := pyMedian values
        mode :=
          if (distinctInOrder values).length < values.length then
            some (pyMode values)
          else none
        std_dev := if 1 < values.length then ratSqrt (pyVariance values) else 0
        variance := if 1 < values.length then pyVariance values else 0
        min := pyMin values
        max := pyMax values
        range := pyMax values - pyMin values
        sum := values.sum }

/-! ## Text analysis (`analyze_text`) -/

/-- Python `round(x, 2)` modelled exactly on rationals: round half to even at
two decimal places. -/
def roundHalfEven (q : ℚ) : ℤ :=
  let f := Int.floor q
  let r := q - (f : ℚ)
  if r < 1 / 2 then f
  else if 1 / 2 < r then f + 1
  else if f % 2 = 0 then f else f + 1

/-- Round a rational to two decimal places (Python `round(x, 2)`). -/
def round2 (q : ℚ) : ℚ := (roundHalfEven (q * 100) : ℚ) / 100

/-- Python `max(words, key=len)`: the first token of maximal length. -/
def argmaxLen : List (List Char) → List Char
  | [] => []
  | w :: ws => ws.foldl (fun best x => if best.length < x.length then x else best) w

/-- Python `min(words, key=len)`: the first token of minimal length. -/
def argminLen : List (List Char) → List Char
  | [] => []
  | w :: ws => ws.foldl (fun best x => if x.length < best.length then x else best) w

/-- Punctuation stripped from words before measuring their length in
`analyze_text` (the Python literal `'.,!?;:"()[]{}'`). -/
def analyzeStripSet : List Char :=
  ['.', ',', '!', '?', ';', ':', '"', '(', ')', '[', ']', '\x7b', '\x7d']

/-- `character_analysis` sub-result of `analyze_text`. -/
structure CharAnalysis where
  total_chars : ℕ
  chars_no_spaces : ℕ
  uppercase : ℕ
  lowercase : ℕ
  digits : ℕ
  special_chars : ℕ
deriving DecidableEq

/-- Result shape of `analyze_text`. -/
structure AnalyzeResult where
  word_count : ℕ
  sentence_count : ℕ
  paragraph_count : ℕ
  avg_word_length : ℚ
  avg_sentence_length : ℚ
  character_analysis : CharAnalysis
  longest_word : String
  shortest_word : String
deriving DecidableEq

/-- Shallow embedding of `analyze_text` (mcp-http-server.py:267-320): words by
whitespace split, sentences by splitting on `'.'` and discarding fragments that
are empty after stripping, paragraphs by splitting on a blank line; character
classes are the ASCII readings of `isupper`/`islower`/`isdigit`/`isalnum`.
The function is wrapped in a `try`/`except` in the source, but no modelled
operation raises, so every input succeeds. -/
def analyze_text (text : String) : Except ClassifiedError AnalyzeResult :=
  let cs := text.toList
  let words := splitWs cs
  let sentences := ((pySplitSeq ['.'] cs).map pyStrip).filter (fun s => !s.isEmpty)
  let word_lengths := words.map (fun w => (stripChars analyzeStripSet w).length)
  let avgWordLen : ℚ :=
    if word_lengths.isEmpty then 0
    else ((word_lengths.sum : ℚ)) / ((word_lengths.length : ℚ))
  Except.ok
    { word_count := words.length
      sentence_count := sentences.length
      paragraph_count := (pySplitSeq ['\n', '\n'] cs).length
      avg_word_length := round2 avgWordLen
      avg_sentence_length :=
        if sentences.isEmpty then 0
        else round2 ((words.length : ℚ) / (sentences.length : ℚ))
      character_analysis :=
        { total_chars := cs.length
          chars_no_spaces := (cs.filter (fun c => !(c == ' '))).length
          uppercase := (cs.filter (fun c => c.isUpper)).length
          lowercase := (cs.filter (fun c => c.isLower)).length
          digits := (cs.filter (fun c => c.isDigit)).length
          special_chars :=
            (cs.filter (fun c => !c.isAlphanum && !isPySpace c)).length }
      longest_word := (argmaxLen words).asString
      shortest_word := (argminLen words).asString }

/-! ## Text transformation (`transform_text`) -/

/-- Vowels of the pig-latin rules. -/
def vowelsL : List Char := ['a', 'e', 'i', 'o', 'u']

/-- Vowel test of the source: lowercase the character, then membership in
`'aeiou'`. -/
def isVowel (c : Char) : Bool := vowelsL.contains c.toLower

/-- Index of the first vowel (the length of the list when there is none),
matching the source's scan with a `for`/`else` fallback. -/
def firstVowelIdx : List Char → Nat
  | [] => 0
  | c :: cs => if isVowel c then 0 else firstVowelIdx cs + 1

/-- The trailing punctuation set of the pig-latin branch (`".,!?;:"`). -/
def pigPunct : List Char := ['.', ',', '!', '?', ';', ':']

/-- Detach one trailing punctuation character of the set `".,!?;:"` from a
word, giving the cleaned word and the detached punctuation (both the source
and the claim describe this identically). -/
def pigDetach (word : List Char) : List Char × List Char :=
  let punct : List Char :=
    match word.getLast? with
    | some c => if pigPunct.contains c then [c] else []
    | none => []
  (if punct.isEmpty then word else word.dropLast, punct)

/-- Per-word pig-latin conversion as the source performs it
(mcp-http-server.py:360-392): detach one trailing punctuation character,
apply the vowel/consonant-cluster rules to the remainder (the first-vowel
index is found by the source's scan with a no-vowel fallback to the word
length), reattach the punctuation; a word that is empty after detaching is
kept unchanged. -/
def pigWord (word : List Char) : List Char :=
  let dp := pigDetach word
  match dp.1 with
  | [] => word
  | c :: _ =>
    (if isVowel c then dp.1 ++ ['w', 'a', 'y']
     else
       dp.1.drop (firstVowelIdx dp.1) ++ dp.1.take (firstVowelIdx dp.1) ++
         ['a', 'y']) ++ dp.2

/-- The pig-latin branch of `transform_text`: split on whitespace, convert each
word, rejoin with single spaces. -/
def pigLatinCode (cs : List Char) : List Char :=
  List.intercalate [' '] ((splitWs cs).map pigWord)

/-- CPython `str.title()` for ASCII text: an alphabetic character is
uppercased when the previous character is not alphabetic and lowercased
otherwise; non-alphabetic characters are kept and reset the state. -/
def pyTitleGo : Bool → List Char → List Char
  | _, [] => []
  | prevCased, c :: cs =>
    if c.isAlpha then
      (if prevCased then c.toLower else c.toUpper) :: pyTitleGo true cs
    else c :: pyTitleGo false cs

/-- Python `str.title()` (ASCII model). -/
def pyTitle (s : List Char) : List Char := pyTitleGo false s

/-- Python `str.upper()` (ASCII model). -/
def pyUpper (s : List Char) : List Char := s.map Char.toUpper

/-- Python `str.lower()` (ASCII model). -/
def pyLower (s : List Char) : List Char := s.map Char.toLower

/-- Shallow embedding of `transform_text` (mcp-http-server.py:322-401). An
unknown transformation raises `ValueError`, which the `except` clause turns
into an HTTP 400. -/
def transform_text (text transformation : String) : Except ClassifiedError String :=
  if transformation = "upper" then .ok ((pyUpper text.toList).asString)
  else if transformation = "lower" then .ok ((pyLower text.toList).asString)
  else if transformation = "title" then .ok ((pyTitle text.toList).asString)
  else if transformation = "reverse" then .ok (text.toList.reverse.asString)
  else if transformation = "pig_latin" then .ok ((pigLatinCode text.toList).asString)
  else
    .error ⟨.invalid_input,
      "Error transforming text: Unknown transformation: " ++ transformation⟩

/-! ## Information extraction (`extract_information`)

The source uses `re.findall` with five fixed patterns.  The patterns are
embedded with a small candidate-list backtracking engine: a matcher step maps
the remaining input to the list of possible remainders in the order Python's
backtracking engine would try them (greedy quantifiers produce their longest
candidate first).  `re.findall` scans left to right, taking the leftmost
match at each position and continuing after it. -/

/-- A matcher step: the possible remainders after matching a pattern piece at
the head of the input, in backtracking priority order. -/
abbrev Cands := List Char → List (List Char)

/-- Match a single character satisfying `p`. -/
def oneC (p : Char → Bool) : Cands := fun s =>
  match s with
  | [] => []
  | c :: rest => if p c then [rest] else []

/-- Match one literal character. -/
def litC (ch : Char) : Cands := oneC (fun c => c == ch)

/-- `x?` for a single-character class: consume it if possible (greedy), else
match empty. -/
def optC (p : Char → Bool) : Cands := fun s =>
  match s with
  | [] => [s]
  | c :: rest => if p c then [rest, s] else [s]

/-- Sequential composition of two matcher steps. -/
def seq2 (f g : Cands) : Cands := fun s => (f s).flatMap g

/-- Sequential composition of a list of matcher steps. -/
def seqC (fs : List Cands) : Cands := fs.foldr seq2 (fun s => [s])

/-- `x{lo,hi}` for a single-character class, greedy. -/
def repC (p : Char → Bool) (lo hi : Nat) : Cands := fun s =>
  let n := Nat.min (s.takeWhile p).length hi
  if n < lo then [] else (List.range (n + 1 - lo)).map (fun i => s.drop (n - i))

/-- `x+` for a single-character class, greedy. -/
def plusC (p : Char → Bool) : Cands := fun s =>
  let n := (s.takeWhile p).length
  (List.range n).map (fun i => s.drop (n - i))

/-- `x*` for a single-character class, greedy. -/
def starC (p : Char → Bool) : Cands := fun s => plusC p s ++ [s]

/-- `u+` for an arbitrary unit that always consumes at least one character
(fuel-bounded worker); more repetitions are tried first. -/
def plusUGo (unit : Cands) : Nat → List Char → List (List Char)
  | 0, _ => []
  | fuel + 1, s =>
    (unit s).flatMap fun s1 =>
      if s1.length < s.length then plusUGo unit fuel s1 ++ [s1] else [s1]

/-- `u+` for an arbitrary consuming unit, greedy. -/
def plusU (unit : Cands) : Cands := fun s => plusUGo unit s.length s

/-- Python regex `\w` for ASCII: letters, digits and underscore. -/
def isWordChar (c : Char) : Bool := c.isAlphanum || c == '_'

/-- Python regex `\b`: a word boundary between two (optional) characters. -/
def boundaryB (a b : Option Char) : Bool :=
  (match a with | some c => isWordChar c | none => false) !=
    (match b with | some c => isWordChar c | none => false)

/-- Attempt a match at the head of `s` (with `prev` the character before it):
try the candidate remainders in order, requiring a non-empty match and, when
asked, word boundaries at both ends. -/
def matchAt (cands : Cands) (startB endB : Bool) (prev : Option Char)
    (s : List Char) : Option (List Char × List Char) :=
  if startB && !boundaryB prev s.head? then none
  else
    (cands s).findSome? fun rest =>
      let k := s.length - rest.length
      if k = 0 then none
      else
        let matched := s.take k
        if endB && !boundaryB matched.getLast? rest.head? then none
        else some (matched, rest)

/-- The scan loop of `re.findall`: try a match at every position from left to
right, emit it and continue after its end, otherwise advance one character. -/
def scanAll (cands : Cands) (startB endB : Bool) :
    Nat → Option Char → List Char → List (List Char)
  | 0, _, _ => []
  | fuel + 1, prev, s =>
    match matchAt cands startB endB prev s with
    | some (matched, rest) =>
      matched :: scanAll cands startB endB fuel matched.getLast? rest
    | none =>
      match s with
      | [] => []
      | c :: cs => scanAll cands startB endB fuel (some c) cs

/-- `re.findall` for a pattern without capture groups. -/
def pyFindall (cands : Cands) (startB endB : Bool) (text : String) : List String :=
  (scanAll cands startB endB (text.length + 1) none text.toList).map List.asString

/-- The class `[A-Za-z0-9._%+-]` of the email pattern's local part. -/
def emailLocalB (c : Char) : Bool :=
  c.isAlphanum || c == '.' || c == '_' || c == '%' || c == '+' || c == '-'

/-- The class `[A-Za-z0-9.-]` of the email pattern's domain part. -/
def emailDomB (c : Char) : Bool := c.isAlphanum || c == '.' || c == '-'

/-- The class `[A-Z|a-z]` of the email pattern's top-level-domain part (the
literal `|` inside the class is part of the source pattern). -/
def emailTldB (c : Char) : Bool :=
  (('A' ≤ c) && (c ≤ 'Z')) || c == '|' || (('a' ≤ c) && (c ≤ 'z'))

/-- The email pattern `\b[A-Za-z0-9._%+-]+@[A-Za-z0-9.-]+\.[A-Z|a-z]{2,}\b`
(without its outer `\b` assertions, handled by the scanner). -/
def emailCands : Cands :=
  seqC [plusC emailLocalB, litC '@', plusC emailDomB, litC '.',
        oneC emailTldB, oneC emailTldB, starC emailTldB]

/-- The class `[$-_@.&+]` of the URL pattern: the range `$`–`_` (the listed
extras all fall inside it). -/
def urlCls3 (c : Char) : Bool :=
  (('$' ≤ c) && (c ≤ '_')) || c == '@' || c == '.' || c == '&' || c == '+'

/-- The class `[!*\\(\\),]` of the URL pattern. -/
def urlCls4 (c : Char) : Bool :=
  c == '!' || c == '*' || c == '\\' || c == '(' || c == ')' || c == ','

/-- Hexadecimal digit, for the `%[0-9a-fA-F][0-9a-fA-F]` escape alternative. -/
def isHexB (c : Char) : Bool :=
  c.isDigit || (('a' ≤ c) && (c ≤ 'f')) || (('A' ≤ c) && (c ≤ 'F'))

/-- One repetition unit of the URL pattern's body: the alternation
`[a-zA-Z]|[0-9]|[$-_@.&+]|[!*\\(\\),]|%hh`, alternatives in source order. -/
def urlUnit : Cands := fun s =>
  oneC (fun c => c.isAlpha) s ++ oneC (fun c => c.isDigit) s ++
    oneC urlCls3 s ++ oneC urlCls4 s ++
    seqC [litC '%', oneC isHexB, oneC isHexB] s

/-- The URL pattern `http[s]?://(?:...)+` (it carries no `\b` assertions). -/
def urlCands : Cands :=
  seqC [litC 'h', litC 't', litC 't', litC 'p', optC (fun c => c == 's'),
        litC ':', litC '/', litC '/', plusU urlUnit]

/-- The slash-or-dash separator class of the date pattern. -/
def slashDashB (c : Char) : Bool := c == '/' || c == '-'

/-- First alternative of the date pattern: one or two digits, a slash or
dash, one or two digits, a slash or dash, then two to four digits. -/
def dateAlt1 : Cands :=
  seqC [repC Char.isDigit 1 2, oneC slashDashB, repC Char.isDigit 1 2,
        oneC slashDashB, repC Char.isDigit 2 4]

/-- Second alternative of the date pattern: four digits, a slash or dash, one
or two digits, a slash or dash, then one or two digits. -/
def dateAlt2 : Cands :=
  seqC [repC Char.isDigit 4 4, oneC slashDashB, repC Char.isDigit 1 2,
        oneC slashDashB, repC Char.isDigit 1 2]

/-- The date pattern (both alternatives, between `\b` assertions). -/
def dateCands : Cands := fun s => dateAlt1 s ++ dateAlt2 s

/-- The number pattern `\b\d+(?:\.\d+)?\b` (the optional decimal part is
greedy). -/
def numberCands : Cands :=
  seqC [plusC Char.isDigit,
        fun s => seqC [litC '.', plusC Char.isDigit] s ++ [s]]

/-- `re.findall` of the email pattern. -/
def emailFindall (text : String) : List String := pyFindall emailCands true true text

/-- `re.findall` of the URL pattern. -/
def urlFindall (text : String) : List String := pyFindall urlCands false false text

/-- `re.findall` of the date pattern. -/
def dateFindall (text : String) : List String := pyFindall dateCands true true text

/-- `re.findall` of the number pattern. -/
def numberFindall (text : String) : List String := pyFindall numberCands true true text

/-- Separator class `[-.\s]` of the phone pattern. -/
def sepB (c : Char) : Bool := c == '-' || c == '.' || isPySpace c

/-- The optional prefix group `(?:\+?1[-.\s]?)?` of the phone pattern:
candidate remainders in backtracking order, group-absent last. -/
def phonePfx : Cands := fun s =>
  ((optC (fun c => c == '+') s).flatMap fun s1 =>
    (litC '1' s1).flatMap fun s2 => optC sepB s2) ++ [s]

/-- Match exactly `n` digits, returning them and the remainder. -/
def digitsN : Nat → List Char → Option (List Char × List Char)
  | 0, s => some ([], s)
  | _ + 1, [] => none
  | n + 1, c :: rest =>
    if c.isDigit then (digitsN n rest).map (fun p => (c :: p.1, p.2)) else none

/-- Attempt the phone pattern
`\b(?:\+?1[-.\s]?)?\(?([0-9]{3})\)?[-.\s]?([0-9]{3})[-.\s]?([0-9]{4})\b` at the
head of `s`, returning the three captured digit groups and the remainder.
The trailing `\b` follows a digit, so it holds exactly when the next character
is absent or a non-word character. -/
def matchPhoneAt (prev : Option Char) (s : List Char) :
    Option ((String × String × String) × List Char) :=
  if !boundaryB prev s.head? then none
  else
    (phonePfx s).findSome? fun s1 =>
    (optC (fun c => c == '(') s1).findSome? fun s2 =>
    (digitsN 3 s2).bind fun g1p =>
    (optC (fun c => c == ')') g1p.2).findSome? fun s4 =>
    (optC sepB s4).findSome? fun s5 =>
    (digitsN 3 s5).bind fun g2p =>
    (optC sepB g2p.2).findSome? fun s7 =>
    (digitsN 4 s7).bind fun g3p =>
    if boundaryB g3p.1.getLast? g3p.2.head? then
      some ((g1p.1.asString, g2p.1.asString, g3p.1.asString), g3p.2)
    else none

/-- `re.findall` scan loop for the phone pattern (capture-group tuples). -/
def scanPhones : Nat → Option Char → List Char → List (String × String × String)
  | 0, _, _ => []
  | fuel + 1, prev, s =>
    match matchPhoneAt prev s with
    | some (gs, rest) => gs :: scanPhones fuel (gs.2.2.toList.getLast?) rest
    | none =>
      match s with
      | [] => []
      | c :: cs => scanPhones fuel (some c) cs

/-- `re.findall` of the phone pattern: a list of three-group capture tuples. -/
def phoneFindall (text : String) : List (String × String × String) :=
  scanPhones (text.length + 1) none text.toList

/-- The display formatting of a phone capture tuple
(`f"({match[0]}) {match[1]}-{match[2]}"`). -/
def phoneFormat (g : String × String × String) : String :=
  "(" ++ g.1 ++ ") " ++ g.2.1 ++ "-" ++ g.2.2

/-- The valid extraction kinds, in the insertion order of the source's
pattern dictionary. -/
def extractionTypes : List String :=
  ["emails", "urls", "phone_numbers", "dates", "numbers"]

/-- Shallow embedding of `extract_information` (mcp-http-server.py:403-460).
An unknown kind raises `ValueError` naming the valid kinds, which the
`except` clause turns into an HTTP 400; phone matches are reassembled from
their three capture groups, all other kinds return the raw matches. -/
def extract_information (text extraction_type : String) :
    Except ClassifiedError (List String) :=
  if extraction_type ∈ extractionTypes then
    if extraction_type = "phone_numbers" then
      .ok ((phoneFindall text).map phoneFormat)
    else if extraction_type = "emails" then .ok (emailFindall text)
    else if extraction_type = "urls" then .ok (urlFindall text)
    else if extraction_type = "dates" then .ok (dateFindall text)
    else .ok (numberFindall text)
  else
    .error ⟨.invalid_input,
      "Error extracting information: Unknown extraction type \x27" ++
        extraction_type ++ "\x27. Available: " ++
        String.intercalate ", " extractionTypes⟩

/-! ## Specification-side definitions

The following definitions are written from the wording of the specification's
claims (not from the source), to be compared with the embedded code above. -/

/-- Per-word pig-latin rule exactly as claim C3 words it: detach a trailing
punctuation character from `.,!?;:`; a word starting (after stripping) with a
vowel gets `"way"` appended; otherwise the consonant cluster before the first
vowel moves to the end and `"ay"` is appended, a word with no vowel being
treated as cluster = whole word with empty remainder; the punctuation is
reattached. -/
def pigWordClaimRule (word : List Char) : List Char :=
  let dp := pigDetach word
  let startsVowel :=
    match dp.1.head? with
    | some c => isVowel c
    | none => false
  (if startsVowel then dp.1 ++ ['w', 'a', 'y']
   else
     dp.1.dropWhile (fun d => !isVowel d) ++
       dp.1.takeWhile (fun d => !isVowel d) ++ ['a', 'y']) ++ dp.2

/-- The whole-text transformation claim C3 describes: apply the per-word rule
to each whitespace-delimited word and rejoin with single spaces. -/
def pigLatinClaim (cs : List Char) : List Char :=
  List.intercalate [' '] ((splitWs cs).map pigWordClaimRule)

/-- Per-word pig-latin rule as amended: identical to claim C3's rule except
that a word which is empty after detaching its trailing punctuation is passed
through unchanged. -/
def pigWordAmended (word : List Char) : List Char :=
  let dp := pigDetach word
  if dp.1.isEmpty then word
  else
    let startsVowel :=
      match dp.1.head? with
      | some c => isVowel c
      | none => false
    (if startsVowel then dp.1 ++ ['w', 'a', 'y']
     else
       dp.1.dropWhile (fun d => !isVowel d) ++
         dp.1.takeWhile (fun d => !isVowel d) ++ ['a', 'y']) ++ dp.2

/-- The amended whole-text pig-latin transformation. -/
def pigLatinAmended (cs : List Char) : List Char :=
  List.intercalate [' '] ((splitWs cs).map pigWordAmended)

/-- Title-casing exactly as claim C4 words it: capitalize the first letter of
each whitespace-delimited word (a letter at the start of the text or right
after whitespace) and leave every other character unchanged. -/
def titleWsClaim : Bool → List Char → List Char
  | _, [] => []
  | atStart, c :: cs =>
    (if atStart && c.isAlpha then c.toUpper else c) :: titleWsClaim (isPySpace c) cs

mutual
/-- Title-casing as amended, outside a letter run: the first letter of each
maximal run of consecutive letters is uppercased and the remaining letters of
the run are lowercased; every non-letter character (not just whitespace) ends
a run and is kept unchanged. -/
def titleRunStart : List Char → List Char
  | [] => []
  | c :: cs => if c.isAlpha then c.toUpper :: titleRunRest cs else c :: titleRunStart cs
/-- Title-casing as amended, inside a letter run (remaining letters of the run
are lowercased). -/
def titleRunRest : List Char → List Char
  | [] => []
  | c :: cs => if c.isAlpha then c.toLower :: titleRunRest cs else c :: titleRunStart cs
end

/-! ## Lemmas -/

/-- A left fold with `max` dominates its starting value and every list
element. -/
theorem foldl_max_bounds (xs : List ℚ) :
    ∀ x : ℚ, x ≤ xs.foldl max x ∧ ∀ y ∈ xs, y ≤ xs.foldl max x := by
  induction xs with
  | nil =>
    intro x
    exact ⟨le_refl x, by simp⟩
  | cons a as ih =>
    intro x
    have h := ih (max x a)
    simp only [List.foldl_cons]
    refine ⟨le_trans (le_max_left x a) h.1, ?_⟩
    intro y hy
    rcases List.mem_cons.mp hy with hy | hy
    · rw [hy]
      exact le_trans (le_max_right x a) h.1
    · exact h.2 y hy

/-- A left fold with `min` is below its starting value and every list
element. -/
theorem foldl_min_bounds (xs : List ℚ) :
    ∀ x : ℚ, xs.foldl min x ≤ x ∧ ∀ y ∈ xs, xs.foldl min x ≤ y := by
  induction xs with
  | nil =>
    intro x
    exact ⟨le_refl x, by simp⟩
  | cons a as ih =>
    intro x
    have h := ih (min x a)
    simp only [List.foldl_cons]
    refine ⟨le_trans h.1 (min_le_left x a), ?_⟩
    intro y hy
    rcases List.mem_cons.mp hy with hy | hy
    · rw [hy]
      exact le_trans h.1 (min_le_right x a)
    · exact h.2 y hy

/-- The mean of a non-empty list is at most its maximum. -/
theorem pyMean_le_pyMax (x : ℚ) (xs : List ℚ) :
    pyMean (x :: xs) ≤ pyMax (x :: xs) := by
  have hmem : ∀ y ∈ x :: xs, y ≤ pyMax (x :: xs) := by
    intro y hy
    rcases List.mem_cons.mp hy with hy | hy
    · rw [hy]
      exact (foldl_max_bounds xs x).1
    · exact (foldl_max_bounds xs x).2 y hy
  have hsum : (x :: xs).sum ≤ ((x :: xs).length : ℚ) * pyMax (x :: xs) := by
    have h := List.sum_le_card_nsmul (x :: xs) (pyMax (x :: xs)) hmem
    simpa [nsmul_eq_mul] using h
  have hlen : (0 : ℚ) < ((x :: xs).length : ℚ) := by
    exact_mod_cast Nat.succ_pos xs.length
  rw [pyMean, div_le_iff₀ hlen]
  calc (x :: xs).sum ≤ ((x :: xs).length : ℚ) * pyMax (x :: xs) := hsum
    _ = pyMax (x :: xs) * ((x :: xs).length : ℚ) := mul_comm _ _

/-- The minimum of a non-empty list is at most its mean. -/
theorem pyMin_le_pyMean (x : ℚ) (xs : List ℚ) :
    pyMin (x :: xs) ≤ pyMean (x :: xs) := by
  have hmem : ∀ y ∈ x :: xs, pyMin (x :: xs) ≤ y := by
    intro y hy
    rcases List.mem_cons.mp hy with hy | hy
    · rw [hy]
      exact (foldl_min_bounds xs x).1
    · exact (foldl_min_bounds xs x).2 y hy
  have hsum : ((x :: xs).length : ℚ) * pyMin (x :: xs) ≤ (x :: xs).sum := by
    have h := List.card_nsmul_le_sum (x :: xs) (pyMin (x :: xs)) hmem
    simpa [nsmul_eq_mul] using h
  have hlen : (0 : ℚ) < ((x :: xs).length : ℚ) := by
    exact_mod_cast Nat.succ_pos xs.length
  rw [pyMean, le_div_iff₀ hlen]
  calc pyMin (x :: xs) * ((x :: xs).length : ℚ)
      = ((x :: xs).length : ℚ) * pyMin (x :: xs) := mul_comm _ _
    _ ≤ (x :: xs).sum := hsum

/-- The first-occurrence dedup never has more elements than the list. -/
theorem distinctGo_length_le : ∀ (n : ℕ) (l : List ℚ),
    (distinctGo n l).length ≤ l.length := by
  intro n
  induction n with
  | zero =>
    intro l
    simp [distinctGo]
  | succ m ih =>
    intro l
    cases l with
    | nil => simp [distinctGo]
    | cons x xs =>
      simp only [distinctGo, List.length_cons]
      have h1 := ih (xs.filter (fun y => decide (y ≠ x)))
      have h2 := List.length_filter_le (fun y => decide (y ≠ x)) xs
      omega

/-- Filtering out a value that occurs in the list strictly shrinks it. -/
theorem length_filter_ne_lt (x : ℚ) : ∀ xs : List ℚ, x ∈ xs →
    (xs.filter (fun y => decide (y ≠ x))).length < xs.length := by
  intro xs
  induction xs with
  | nil =>
    intro h
    cases h
  | cons a as ih =>
    intro hx
    by_cases hax : a = x
    · have h2 := List.length_filter_le (fun y => decide (y ≠ x)) as
      rw [hax, List.filter_cons_of_neg (by simp)]
      simp only [List.length_cons]
      omega
    · have hxas : x ∈ as := by
        rcases List.mem_cons.mp hx with h | h
        · exact absurd h.symm hax
        · exact h
      have h3 := ih hxas
      rw [List.filter_cons_of_pos (by simpa using hax)]
      simp only [List.length_cons]
      omega

/-- On sufficient fuel, the first-occurrence dedup preserves the length
exactly when the list has no duplicates. -/
theorem distinctGo_length_eq_iff : ∀ (n : ℕ) (l : List ℚ), l.length ≤ n →
    ((distinctGo n l).length = l.length ↔ l.Nodup) := by
  intro n
  induction n with
  | zero =>
    intro l hl
    have hnil : l = [] := List.length_eq_zero.mp (Nat.le_zero.mp hl)
    subst hnil
    simp [distinctGo]
  | succ m ih =>
    intro l hl
    cases l with
    | nil => simp [distinctGo]
    | cons x xs =>
      have hxs : xs.length ≤ m := by
        simp only [List.length_cons] at hl
        omega
      simp only [distinctGo, List.length_cons, List.nodup_cons]
      by_cases hx : x ∈ xs
      · have hlt := length_filter_ne_lt x xs hx
        have hle := distinctGo_length_le m (xs.filter (fun y => decide (y ≠ x)))
        constructor
        · intro h
          omega
        · intro h
          exact absurd hx h.1
      · have hfeq : xs.filter (fun y => decide (y ≠ x)) = xs := by
          apply List.filter_eq_self.mpr
          intro y hy
          simp only [ne_eq, decide_eq_true_eq]
          intro heq
          exact hx (heq ▸ hy)
        rw [hfeq]
        have hiff := ih xs hxs
        constructor
        · intro h
          exact ⟨hx, hiff.mp (by omega)⟩
        · intro h
          have := hiff.mpr h.2
          omega

/-- Python's `len(set(l)) < len(l)` test holds exactly when `l` has a
duplicate. -/
theorem distinctInOrder_length_lt_iff (l : List ℚ) :
    (distinctInOrder l).length < l.length ↔ ¬ l.Nodup := by
  have hle := distinctGo_length_le l.length l
  have heq := distinctGo_length_eq_iff l.length l (le_refl _)
  unfold distinctInOrder
  constructor
  · intro h hnd
    have := heq.mpr hnd
    omega
  · intro h
    have hne : (distinctGo l.length l).length ≠ l.length := fun he => h (heq.mp he)
    omega

/-- Taking while non-vowel is taking up to the first vowel index. -/
theorem takeWhile_not_vowel_eq (l : List Char) :
    l.takeWhile (fun d => !isVowel d) = l.take (firstVowelIdx l) := by
  induction l with
  | nil => rfl
  | cons c cs ih =>
    cases hc : isVowel c with
    | false =>
      simp only [List.takeWhile_cons, hc, Bool.not_false, if_true, firstVowelIdx,
        Bool.false_eq_true, if_false, List.take_succ_cons, ih]
    | true =>
      simp only [List.takeWhile_cons, hc, Bool.not_true, Bool.false_eq_true,
        if_false, firstVowelIdx, if_true, List.take_zero]

/-- Dropping while non-vowel is dropping up to the first vowel index. -/
theorem dropWhile_not_vowel_eq (l : List Char) :
    l.dropWhile (fun d => !isVowel d) = l.drop (firstVowelIdx l) := by
  induction l with
  | nil => rfl
  | cons c cs ih =>
    cases hc : isVowel c with
    | false =>
      simp only [List.dropWhile_cons, hc, Bool.not_false, if_true, firstVowelIdx,
        Bool.false_eq_true, if_false, List.drop_succ_cons, ih]
    | true =>
      simp only [List.dropWhile_cons, hc, Bool.not_true, Bool.false_eq_true,
        if_false, firstVowelIdx, if_true, List.drop_zero]

/-- The source's per-word pig-latin conversion coincides with the amended
claim rule on every word. -/
theorem pigWord_eq_amended (w : List Char) : pigWord w = pigWordAmended w := by
  unfold pigWord pigWordAmended
  cases h : (pigDetach w).1 with
  | nil => simp [h]
  | cons c rest =>
    simp only [h, List.isEmpty_cons, Bool.false_eq_true, if_false, List.head?_cons]
    cases hv : isVowel c with
    | false =>
      simp only [hv, Bool.false_eq_true, if_false,
        takeWhile_not_vowel_eq, dropWhile_not_vowel_eq]
    | true =>
      simp only [hv, if_true]

/-- CPython title-casing coincides with the run-based amended rule (both
states simultaneously). -/
theorem pyTitleGo_eq_runs (l : List Char) :
    pyTitleGo false l = titleRunStart l ∧ pyTitleGo true l = titleRunRest l := by
  induction l with
  | nil => exact ⟨rfl, rfl⟩
  | cons c cs ih =>
    cases hc : c.isAlpha with
    | false =>
      simp only [pyTitleGo, titleRunStart, titleRunRest, hc, Bool.false_eq_true,
        if_false, ih.1, and_self]
    | true =>
      simp only [pyTitleGo, titleRunStart, titleRunRest, hc, if_true, ih.2,
        Bool.false_eq_true, if_false, and_self, and_true]

/-! ## Claim theorems -/

/-- C1 (counterexample): for `quadratic(1, 0, 1)` the float code computes
`real_part = -b / (2*a) = -0.0 / 2.0 = -0.0` and Python formats the signed
zero, so the program returns the strings `"-0.0 + 1.0i"` and `"-0.0 - 1.0i"`,
which differ from the claimed `"0.0 + 1.0i"` and `"0.0 - 1.0i"`. -/
theorem quadratic_one_zero_one_claimed_strings_refuted :
    solve_quadratic 1 0 1 =
      Except.ok ⟨-4, QuadRoots.complexRoots ["-0.0 + 1.0i", "-0.0 - 1.0i"],
        "complex"⟩ ∧
    QuadRoots.complexRoots ["-0.0 + 1.0i", "-0.0 - 1.0i"] ≠
      QuadRoots.complexRoots ["0.0 + 1.0i", "0.0 - 1.0i"] := by
  refine ⟨by decide, by decide⟩

/-- C1 (amended): for the call `quadratic(1, 0, 1)` the result has root type
`"complex"` and the two roots are exactly the display strings
`"-0.0 + 1.0i"` and `"-0.0 - 1.0i"` (the real part is the IEEE negative zero
`-0.0 / 2.0`, printed with its sign). -/
theorem quadratic_one_zero_one_negative_zero_roots :
    ∃ r, solve_quadratic 1 0 1 = Except.ok r ∧ r.root_type = "complex" ∧
      r.roots = QuadRoots.complexRoots ["-0.0 + 1.0i", "-0.0 - 1.0i"] :=
  ⟨⟨-4, QuadRoots.complexRoots ["-0.0 + 1.0i", "-0.0 - 1.0i"], "complex"⟩,
    by decide, rfl, rfl⟩

/-- C2: for every pair of coefficients `b` and `c`, `quadratic(0, b, c)` fails
with an `invalid_input` error (the division by `2·a = 0` raises in every
discriminant branch). -/
theorem quadratic_zero_leading_coeff_invalid_input (b c : ℚ) :
    solve_quadratic 0 b c =
      Except.error ⟨ErrorKind.invalid_input,
        "Error solving quadratic: division by zero"⟩ := by
  unfold solve_quadratic
  norm_num

/-- C3 (counterexample): the claim's per-word rule, applied as stated to the
word `"!"`, turns it into `"ay!"` (empty cluster, empty remainder, `"ay"`
appended, punctuation reattached), but the code passes the word through
unchanged. -/
theorem pig_latin_claim_rule_fails_on_bare_punct :
    transform_text "!" "pig_latin" = Except.ok "!" ∧
    (pigLatinClaim "!".toList).asString = "ay!" ∧
    ("!" : String) ≠ "ay!" := by
  refine ⟨rfl, rfl, by decide⟩

/-- C3 (amended): `transform(text, "pig_latin")` maps each
whitespace-delimited word by the claim's rule — trailing punctuation from
`.,!?;:` detached and reattached, vowel-initial words get `"way"`, otherwise
the consonant cluster before the first vowel moves to the end with `"ay"`
(the whole word when no vowel exists) — with the amendment that a word that is
empty after detaching its punctuation passes through unchanged; words are
rejoined with single spaces, and in particular
`transform("Hello world.", "pig_latin") = "elloHay orldway."`. -/
theorem pig_latin_matches_amended_rule :
    (∀ text : String,
      transform_text text "pig_latin" =
        Except.ok ((pigLatinAmended text.toList).asString)) ∧
    transform_text "Hello world." "pig_latin" = Except.ok "elloHay orldway." := by
  constructor
  · intro text
    have h1 : transform_text text "pig_latin" =
        Except.ok ((pigLatinCode text.toList).asString) := rfl
    rw [h1]
    unfold pigLatinCode pigLatinAmended
    rw [funext pigWord_eq_amended]
  · rfl

/-- C4 (counterexample): on the input `"don't"` the code (Python
`str.title()`) produces `"Don'T"` — the apostrophe starts a new letter run —
while the claim's whitespace-boundary rule produces `"Don't"`. -/
theorem title_whitespace_rule_fails_on_apostrophe :
    transform_text "don\x27t" "title" = Except.ok "Don\x27T" ∧
    (titleWsClaim true "don\x27t".toList).asString = "Don\x27t" ∧
    ("Don\x27T" : String) ≠ "Don\x27t" := by
  refine ⟨rfl, rfl, by decide⟩

/-- C4 (amended): for every input text, `transform(text, "title")` uppercases
the first letter of each maximal run of consecutive letters and lowercases
the remaining letters of each run; run boundaries are all non-letter
characters, not only whitespace. -/
theorem title_matches_letter_run_rule (text : String) :
    transform_text text "title" = Except.ok ((titleRunStart text.toList).asString) := by
  have h1 : transform_text text "title" =
      Except.ok ((pyTitle text.toList).asString) := rfl
  rw [h1]
  unfold pyTitle
  rw [(pyTitleGo_eq_runs text.toList).1]

/-- C5: every successful statistics result satisfies
`min ≤ mean ≤ max` and `range = max - min`. -/
theorem statistics_min_mean_max_range (values : List ℚ) (s : StatsResult)
    (h : calculate_statistics values = Except.ok s) :
    s.min ≤ s.mean ∧ s.mean ≤ s.max ∧ s.range = s.max - s.min := by
  cases values with
  | nil => exact absurd h (by simp [calculate_statistics])
  | cons x xs =>
    simp only [calculate_statistics, Except.ok.injEq] at h
    subst h
    exact ⟨pyMin_le_pyMean x xs, pyMean_le_pyMax x xs, rfl⟩

/-- The statistics record of `[1, 2, 3]`. -/
def statsExample : StatsResult :=
  ⟨3, 2, 2, none, 1, 1, 1, 3, 2, 6⟩

/-- Witness for C5 at the concrete list `[1, 2, 3]`. -/
theorem statistics_min_mean_max_range_witness :
    statsExample.min ≤ statsExample.mean ∧
    statsExample.mean ≤ statsExample.max ∧
    statsExample.range = statsExample.max - statsExample.min :=
  statistics_min_mean_max_range [1, 2, 3] statsExample (by decide)

/-- C6: the mode field of a successful statistics result is `none` exactly
when no value of the input occurs more than once. -/
theorem statistics_mode_none_iff_nodup (values : List ℚ) (s : StatsResult)
    (h : calculate_statistics values = Except.ok s) :
    (s.mode = none ↔ values.Nodup) := by
  cases values with
  | nil => exact absurd h (by simp [calculate_statistics])
  | cons x xs =>
    simp only [calculate_statistics, Except.ok.injEq] at h
    subst h
    show (if (distinctInOrder (x :: xs)).length < (x :: xs).length then
        some (pyMode (x :: xs)) else none) = none ↔ (x :: xs).Nodup
    rcases Nat.lt_or_ge (distinctInOrder (x :: xs)).length (x :: xs).length with
      hlt | hge
    · rw [if_pos hlt]
      have hnd := (distinctInOrder_length_lt_iff (x :: xs)).mp hlt
      simp [hnd]
    · have hnlt : ¬ (distinctInOrder (x :: xs)).length < (x :: xs).length :=
        Nat.not_lt.mpr hge
      rw [if_neg hnlt]
      have hnd : (x :: xs).Nodup := by
        by_contra hc
        exact hnlt ((distinctInOrder_length_lt_iff (x :: xs)).mpr hc)
      simp [hnd]

/-- The statistics record of `[1, 1]`. -/
def statsDupExample : StatsResult :=
  ⟨2, 1, 1, some 1, 0, 0, 1, 1, 0, 2⟩

/-- Witness for C6 at the concrete list `[1, 1]`. -/
theorem statistics_mode_none_iff_nodup_witness :
    (statsDupExample.mode = none ↔ ([1, 1] : List ℚ).Nodup) :=
  statistics_mode_none_iff_nodup [1, 1] statsDupExample (by decide)

/-- C7: statistics of the empty list fails with an `invalid_input` error
(`statistics.mean` raises, converted to an HTTP 400). -/
theorem statistics_empty_invalid_input :
    calculate_statistics ([] : List ℚ) =
      Except.error ⟨ErrorKind.invalid_input,
        "Error calculating statistics: mean requires at least one data point"⟩ :=
  rfl

/-- C8: phone-number extraction reassembles every match from its three
captured digit groups into the display form, and on
`"Call 555-123-4567 or (555) 123-4567"` it returns exactly two entries, both
`"(555) 123-4567"`. -/
theorem extract_phone_numbers_formatted :
    (∀ text : String, extract_information text "phone_numbers" =
      Except.ok ((phoneFindall text).map phoneFormat)) ∧
    extract_information "Call 555-123-4567 or (555) 123-4567" "phone_numbers" =
      Except.ok ["(555) 123-4567", "(555) 123-4567"] := by
  refine ⟨fun text => rfl, ?_⟩
  rfl

/-- C9: for every text and every kind outside the five valid extraction
kinds, extraction fails with an `invalid_input` error whose message names the
valid kind set. -/
theorem extract_unknown_kind_invalid_input (text kind : String)
    (h : kind ∉ extractionTypes) :
    extract_information text kind =
      Except.error ⟨ErrorKind.invalid_input,
        "Error extracting information: Unknown extraction type \x27" ++ kind ++
          "\x27. Available: " ++ "emails, urls, phone_numbers, dates, numbers"⟩ := by
  unfold extract_information
  rw [if_neg h]
  rfl

/-- Witness for C9 at the concrete kind `"words"`. -/
theorem extract_unknown_kind_invalid_input_witness :
    extract_information "sample" "words" =
      Except.error ⟨ErrorKind.invalid_input,
        "Error extracting information: Unknown extraction type \x27" ++ "words" ++
          "\x27. Available: " ++ "emails, urls, phone_numbers, dates, numbers"⟩ :=
  extract_unknown_kind_invalid_input "sample" "words" (by decide)

/-- C10: analysis of the empty string succeeds with zero counts everywhere
except a paragraph count of one, and empty longest/shortest words. -/
theorem analyze_empty_string :
    analyze_text "" = Except.ok
      { word_count := 0
        sentence_count := 0
        paragraph_count := 1
        avg_word_length := 0
        avg_sentence_length := 0
        character_analysis :=
          { total_chars := 0, chars_no_spaces := 0, uppercase := 0,
            lowercase := 0, digits := 0, special_chars := 0 }
        longest_word := ""
        shortest_word := "" } := by
  decide
